import Mathlib

/-!
Verification development for the `Compare` component of the enrichm
comparative-genomics tool (`enrichm/comparer.py`).

The Python code is shallowly embedded: Python dicts become association
lists (preserving insertion order and key-update semantics), Python sets
of strings become `Finset String`, numeric values become `ℚ` (the float
arithmetic used by the code is exact on the inputs considered, except for
the standard deviation, which is embedded as a real square root), and
code that can raise becomes `Except String`.
-/

instance {ε α : Type} [DecidableEq ε] [DecidableEq α] : DecidableEq (Except ε α)
  | .ok a, .ok b =>
    if h : a = b then .isTrue (by rw [h]) else .isFalse (by intro hh; cases hh; exact h rfl)
  | .ok _, .error _ => .isFalse (by intro h; cases h)
  | .error _, .ok _ => .isFalse (by intro h; cases h)
  | .error a, .error b =>
    if h : a = b then .isTrue (by rw [h]) else .isFalse (by intro hh; cases hh; exact h rfl)

/-- Association-list lookup, modelling Python dict indexing `d[k]`
(`none` models both `k not in d` and a `KeyError`). -/
def alookup {κ α : Type} [DecidableEq κ] (k : κ) : List (κ × α) → Option α
  | [] => none
  | (k', v) :: rest => if k = k' then some v else alookup k rest

/-- Association-list insert-or-update, modelling Python dict assignment
`d[k] = v`: replaces the value at an existing key in place, otherwise
appends, preserving insertion order. -/
def aupdate {κ α : Type} [DecidableEq κ] (k : κ) (v : α) : List (κ × α) → List (κ × α)
  | [] => [(k, v)]
  | (k', v') :: rest => if k' = k then (k', v) :: rest else (k', v') :: aupdate k v rest

/-- Characters considered whitespace by Python `str.strip()`. -/
def isPyWhitespace (c : Char) : Bool :=
  c = ' ' ∨ c = '\t' ∨ c = '\n' ∨ c = '\r' ∨ c = '\x0b' ∨ c = '\x0c'

/-- Both-ends trim on a character list, modelling Python `str.strip()`. -/
def trimChars (cs : List Char) : List Char :=
  ((cs.dropWhile isPyWhitespace).reverse.dropWhile isPyWhitespace).reverse

/-- Split a character list at every occurrence of `sep`, modelling Python
`str.split(sep)` (which yields one chunk more than the separator count,
including empty chunks). -/
def splitChar (sep : Char) : List Char → List (List Char)
  | [] => [[]]
  | c :: cs =>
    let rest := splitChar sep cs
    if c = sep then [] :: rest
    else
      match rest with
      | [] => [[c]]
      | r :: rs => (c :: r) :: rs

/-- String version of `splitChar`, modelling Python `s.split(sep)`. -/
def strSplitOn (sep : Char) (s : String) : List String :=
  (splitChar sep s.toList).map (fun cs => String.mk cs)

/-- Split a character list at the first character satisfying `p`,
returning the prefix and, when a split happened, the remainder. -/
def splitAtChar (p : Char → Bool) : List Char → List Char × Option (List Char)
  | [] => ([], none)
  | c :: cs =>
    if p c then ([], some cs)
    else
      let r := splitAtChar p cs
      (c :: r.1, r.2)

/-- Numeric value of a list of decimal digit characters. -/
def digitsVal (cs : List Char) : Nat :=
  cs.foldl (fun a c => a * 10 + (c.toNat - 48)) 0

/-- Rational value of a decimal scientific literal: `sign * m * 10 ^ e`. -/
def ratOfSci (sign : Int) (m : Nat) (e : Int) : ℚ :=
  if 0 ≤ e then mkRat (sign * (m : Int) * ((10 ^ e.toNat : Nat) : Int)) 1
  else mkRat (sign * (m : Int)) (10 ^ (-e).toNat)

/-- Model of Python `float(s)` on decimal literals: optional sign, digits
with an optional decimal point, optional exponent part. Returns `none`
when `float` would raise `ValueError`. (The special forms `inf`/`nan`
are not modelled; no input considered here uses them.) -/
def parseFloat (s : String) : Option ℚ :=
  let cs := trimChars s.toList
  let signBody : Int × List Char :=
    match cs with
    | '-' :: rest => (-1, rest)
    | '+' :: rest => (1, rest)
    | _ => (1, cs)
  let mantExp := splitAtChar (fun c => c = 'e' ∨ c = 'E') signBody.2
  let intFrac := splitAtChar (fun c => c = '.') mantExp.1
  let ipart := intFrac.1
  let fpart := (intFrac.2).getD []
  if ipart.all Char.isDigit ∧ fpart.all Char.isDigit ∧ 0 < ipart.length + fpart.length then
    let m := digitsVal (ipart ++ fpart)
    match mantExp.2 with
    | none => some (ratOfSci signBody.1 m (-(fpart.length : Int)))
    | some ex =>
      let expSignBody : Int × List Char :=
        match ex with
        | '-' :: rest => (-1, rest)
        | '+' :: rest => (1, rest)
        | _ => (1, ex)
      if 0 < expSignBody.2.length ∧ expSignBody.2.all Char.isDigit then
        some (ratOfSci signBody.1 m
          (expSignBody.1 * (digitsVal expSignBody.2 : Int) - (fpart.length : Int)))
      else none
  else none

/-- A retained best-hit record `[hit_genome, hit_sequence_id, evalue]`
as stored by `_parse_blast`; the e-value is kept as the raw input string. -/
structure Hit where
  hitGenome : String
  hitSeqid : String
  evalue : String
deriving DecidableEq

/-- One well-formed alignment record after field splitting: the fields of
the 12-column line that `_parse_blast` actually uses, with the composite
query/subject ids already split on `~`. -/
structure BlastRec where
  genome : String
  seqid : String
  hitGenome : String
  hitSeqid : String
  evalue : String
deriving DecidableEq

/-- The three-level best-hit table built by `_parse_blast`:
query genome → query sequence → hit genome → record. -/
abbrev BlastTable := List (String × List (String × List (String × Hit)))

instance : DecidableEq (List (String × Hit)) := inferInstance

instance : DecidableEq (List (String × List (String × Hit))) := inferInstance

instance : DecidableEq BlastTable := inferInstance

/-- Field-splitting part of `_parse_blast`'s loop body: strip the line,
split on tabs into exactly 12 fields, split the query and subject ids on
`~` into exactly two parts each. Any mismatch models the `ValueError`
Python raises at the unpacking assignments. -/
def parseBlastLine (line : String) : Except String BlastRec :=
  match strSplitOn '\t' (String.mk (trimChars line.toList)) with
  | [qseqid, sseqid, _pident, _length, _mismatch, _gapopen, _qstart, _qend,
      _sstart, _send, evalue, _bitscore] =>
    match strSplitOn '~' qseqid, strSplitOn '~' sseqid with
    | [genome, seqid], [hitGenome, hitSeqid] =>
      .ok ⟨genome, seqid, hitGenome, hitSeqid, evalue⟩
    | _, _ => .error "ValueError: composite id does not unpack into two values"
  | _ => .error "ValueError: line does not unpack into twelve fields"

/-- The record stored in the table for an input record. -/
def hitOf (r : BlastRec) : Hit :=
  ⟨r.hitGenome, r.hitSeqid, r.evalue⟩

/-- One iteration of `_parse_blast`'s loop: nested dict updates creating
missing levels, and on a collision at a (genome, sequence, hit genome)
triple the comparison `float(evalue) < float(p_eval)`, which converts
both e-value strings and keeps the stored record unless the new one is
strictly smaller. -/
def parseBlastStep (result : BlastTable) (line : String) : Except String BlastTable := do
  let r ← parseBlastLine line
  match alookup r.genome result with
  | none => .ok (aupdate r.genome [(r.seqid, [(r.hitGenome, hitOf r)])] result)
  | some seqTbl =>
    match alookup r.seqid seqTbl with
    | none => .ok (aupdate r.genome (aupdate r.seqid [(r.hitGenome, hitOf r)] seqTbl) result)
    | some hitTbl =>
      match alookup r.hitGenome hitTbl with
      | none =>
        .ok (aupdate r.genome
          (aupdate r.seqid (aupdate r.hitGenome (hitOf r) hitTbl) seqTbl) result)
      | some p =>
        match parseFloat r.evalue with
        | none => .error "ValueError: could not convert string to float"
        | some e =>
          match parseFloat p.evalue with
          | none => .error "ValueError: could not convert string to float"
          | some pe =>
            if e < pe then
              .ok (aupdate r.genome
                (aupdate r.seqid (aupdate r.hitGenome (hitOf r) hitTbl) seqTbl) result)
            else .ok result

/-- The `_parse_blast` method: fold the loop body over the input lines,
starting from an empty table. -/
def parseBlast (lines : List String) : Except String BlastTable :=
  lines.foldlM parseBlastStep []

/-- Three-level lookup in a best-hit table. -/
def lookup3 (tbl : BlastTable) (g s hg : String) : Option Hit :=
  (alookup g tbl).bind fun t1 => (alookup s t1).bind fun t2 => alookup hg t2

/-- Numeric e-value of a stored record (the value `float` would produce;
defaults to 0 on strings `float` rejects, which the theorems rule out by
hypothesis where the number matters). -/
def valHit (h : Hit) : ℚ :=
  (parseFloat h.evalue).getD 0

/-- The well-formed records of the input that concern one
(query genome, query sequence, hit genome) triple, in input order. -/
def matchingRecs (lines : List String) (g s hg : String) : List BlastRec :=
  lines.filterMap fun line =>
    match parseBlastLine line with
    | .ok r => if r.genome = g ∧ r.seqid = s ∧ r.hitGenome = hg then some r else none
    | .error _ => none

/-- Reduction step on a single triple: keep the stored record unless the
new one has strictly smaller e-value. -/
def combineHit (acc : Option Hit) (h : Hit) : Option Hit :=
  match acc with
  | none => some h
  | some p => if valHit h < valHit p then some h else some p

/-- Add to a Python set modelled as a duplicate-free list (insertion order). -/
def linsert (x : String) (l : List String) : List String :=
  if x ∈ l then l else l ++ [x]

/-- One iteration of `_metadata_parser`'s loop on the state
(metadata mapping, seen set): strip the line and split on tab into
exactly two fields (genome, group); raise on a genome name already seen;
otherwise add the genome to its group's set and record it as seen. -/
def metadataStep (st : List (String × List String) × List String) (line : String) :
    Except String (List (String × List String) × List String) :=
  match strSplitOn '\t' (String.mk (trimChars line.toList)) with
  | [genome, group] =>
    if genome ∈ st.2 then
      Except.error ("Duplicate entry in metadata file: " ++ genome)
    else
      match alookup group st.1 with
      | some gs => Except.ok (aupdate group (linsert genome gs) st.1, st.2 ++ [genome])
      | none => Except.ok (aupdate group [genome] st.1, st.2 ++ [genome])
  | _ => Except.error "ValueError: metadata line does not unpack into two fields"

/-- The `_metadata_parser` method: fold the loop body over the lines and
return the group → genome-set mapping. -/
def parseMetadata (lines : List String) : Except String (List (String × List String)) := do
  let st ← lines.foldlM metadataStep ([], [])
  Except.ok st.1

/-- The (genome, group) fields of a metadata line, when it is
well-formed. -/
def metaName (line : String) : Option (String × String) :=
  match strSplitOn '\t' (String.mk (trimChars line.toList)) with
  | [genome, group] => some (genome, group)
  | _ => none

/-- The genome-name column of the well-formed metadata lines, in input
order. -/
def metaNames (lines : List String) : List String :=
  lines.filterMap fun l => (metaName l).map Prod.fst

/-- The attributes of a pickled genome object that `Compare` reads:
name, sequence table, ortholog-cluster id set, ortholog id set, and the
genomic position → protein id map. -/
structure Genome where
  name : String
  sequences : List (String × String)
  clusters : Finset String
  orthologs : Finset String
  proteinOrderedDict : List (Int × String)
deriving DecidableEq

/-- Round half to even on an exact rational, modelling Python's `round`
on the exact values arising here (the float representation error of
`round(float, 2)` is not modelled). -/
def roundHalfEven (q : ℚ) : ℤ :=
  if q - ⌊q⌋ < 1 / 2 then ⌊q⌋
  else if 1 / 2 < q - ⌊q⌋ then ⌊q⌋ + 1
  else if Even ⌊q⌋ then ⌊q⌋ else ⌊q⌋ + 1

/-- Model of Python `round(x, 2)`. -/
def round2 (q : ℚ) : ℚ :=
  (roundHalfEven (q * 100) : ℚ) / 100

/-- The `_pan_genome` method: for each metadata group, look up the member
genomes (a `KeyError` if one is missing), intersect their cluster sets
(`set.intersection(*...)` raises on an empty group), take the mean
sequence count, and record `[core size, round(core / mean * 100, 2)]`. -/
def panGenome (genomeDict : List (String × Genome))
    (metadata : List (String × List String)) :
    Except String (List (String × (ℕ × ℚ))) :=
  metadata.foldlM
    (fun result entry => do
      let groupGenomes ← entry.2.mapM (fun g =>
        match alookup g genomeDict with
        | some gen => Except.ok gen
        | none => Except.error "KeyError: genome not in genome dictionary")
      match groupGenomes with
      | [] => Except.error "TypeError: intersection applied to no sets"
      | g0 :: rest =>
        let core := rest.foldl (fun acc g => acc ∩ g.clusters) g0.clusters
        let lengths := (g0 :: rest).map (fun g => g.sequences.length)
        let mean : ℚ := (lengths.sum : ℚ) / (lengths.length : ℚ)
        Except.ok (aupdate entry.1 (core.card, round2 ((core.card : ℚ) / mean * 100)) result))
    []

/-- Insertion of one element into a sorted rational list. -/
def insertSorted (x : ℚ) : List ℚ → List ℚ
  | [] => [x]
  | y :: ys => if x ≤ y then x :: y :: ys else y :: insertSorted x ys

/-- Ascending sort of a rational list (the sort underlying `np.median`
and `np.percentile`). -/
def sortRat (l : List ℚ) : List ℚ :=
  l.foldr insertSorted []

/-- Model of `np.array(l).mean()`. -/
def npMean (l : List ℚ) : ℚ :=
  l.sum / (l.length : ℚ)

/-- Model of `np.median`: middle element of the sorted list, or the mean
of the two middle elements for even length. -/
def npMedian (l : List ℚ) : ℚ :=
  let s := sortRat l
  let n := s.length
  if n % 2 = 1 then s.getD (n / 2) 0
  else (s.getD (n / 2 - 1) 0 + s.getD (n / 2) 0) / 2

/-- Population variance, the square of `np.std` (which uses `ddof=0`). -/
def npVar (l : List ℚ) : ℚ :=
  ((l.map fun x => (x - npMean l) ^ 2).sum) / (l.length : ℚ)

/-- Model of `np.std`: the square root of the population variance. -/
noncomputable def npStd (l : List ℚ) : ℝ :=
  Real.sqrt (npVar l)

/-- Model of Python `min` over the numbers (0 on the empty list, where
the source raises instead; every use below is on a non-empty list). -/
def npMin (l : List ℚ) : ℚ :=
  match l with
  | [] => 0
  | x :: xs => xs.foldl min x

/-- Model of Python `max` over the numbers (0 on the empty list, where
the source raises instead). -/
def npMax (l : List ℚ) : ℚ :=
  match l with
  | [] => 0
  | x :: xs => xs.foldl max x

/-- Model of `np.percentile` with the default linear interpolation:
index `h = (n-1) * p / 100` into the sorted list, interpolating between
the neighbouring elements. -/
def npPercentile (l : List ℚ) (p : ℚ) : ℚ :=
  let s := sortRat l
  let n := s.length
  let h : ℚ := ((n : ℚ) - 1) * p / 100
  let i : ℤ := ⌊h⌋
  let lo := s.getD i.toNat 0
  let hi := s.getD (min (i.toNat + 1) (n - 1)) 0
  lo + (h - (i : ℚ)) * (hi - lo)

/-- The effective `gather_stats` method (the second definition in the
class body, which in Python shadows the earlier six-element one):
`[mean, median, std, min, max, p90, p10]`. -/
noncomputable def gatherStats (l : List ℚ) : List ℝ :=
  [(npMean l : ℝ), (npMedian l : ℝ), npStd l, (npMin l : ℝ), (npMax l : ℝ),
    (npPercentile l 90 : ℝ), (npPercentile l 10 : ℝ)]

/-- Model of `itertools.combinations(l, k)`: all `k`-element
subsequences of `l`, in the order itertools enumerates them. -/
def combinationsL {α : Type} : Nat → List α → List (List α)
  | 0, _ => [[]]
  | _ + 1, [] => []
  | k + 1, x :: xs => ((combinationsL k xs).map fun c => x :: c) ++ combinationsL (k + 1) xs

/-- The inner count of `saturate`: how many genomes of the combination
contain the ortholog (`len([True for genome in combination if ortholog
in genome.orthologs])`). -/
def hitsCount (combination : List Genome) (ortholog : String) : Nat :=
  (combination.filter fun g => ortholog ∈ g.orthologs).length

/-- Per-combination core count of `saturate`: orthologs present in every
member of the combination. -/
def coreCount (combination : List Genome) (orthologs : List String) : Nat :=
  (orthologs.filter fun o => hitsCount combination o = combination.length).length

/-- Per-combination accessory count of `saturate`: orthologs not present
in every member of the combination. -/
def accessoryCount (combination : List Genome) (orthologs : List String) : Nat :=
  (orthologs.filter fun o => ¬ hitsCount combination o = combination.length).length

/-- The computational part of the `saturate` method (the trailing
file-writing loop is I/O and not modelled): for every subset size
`k = 1 .. len(genomes_list)` enumerate all combinations and aggregate
their core and accessory counts through `gather_stats`. -/
noncomputable def saturate (genomesList : List Genome) (orthologs : List String) :
    List (Nat × (List ℝ × List ℝ)) :=
  (List.range' 1 genomesList.length).map fun k =>
    let combos := combinationsL k genomesList
    (k, (gatherStats (combos.map fun c => (coreCount c orthologs : ℚ)),
         gatherStats (combos.map fun c => (accessoryCount c orthologs : ℚ))))

/-- Model of `itertools.combinations(keys, 2)`: every unordered pair of
distinct positions, as ordered pairs in enumeration order. -/
def pairsOf {α : Type} : List α → List (α × α)
  | [] => []
  | x :: xs => (xs.map fun y => (x, y)) ++ pairsOf xs

/-- Modelled from the spec: the external `scipy.stats.mannwhitneyu`
routine, absent from this repository, reduced to its test statistic —
the two-sample rank-based Mann–Whitney U (smaller of the two U values,
with the half-count for ties). It is total: an empty sample yields U = 0
rather than an error. -/
def mannwhitneyuU (xs ys : List ℚ) : ℚ :=
  let u1 : ℚ :=
    (xs.map fun x =>
      (ys.map fun y => if y < x then (1 : ℚ) else if y = x then 1 / 2 else 0).sum).sum
  let u2 : ℚ := ((xs.length : ℚ) * (ys.length : ℚ)) - u1
  min u1 u2

/-- The `run_mannwhitneyu` method (its unused `feature` parameter is
omitted): for every pair produced by `itertools.combinations` over the
group labels, apply the external test to the two groups' number lists
and record the result under the pair. The method performs no emptiness
check on the groups and has no error path of its own. -/
def runMannwhitneyu {α : Type} (test : List ℚ → List ℚ → α)
    (featureList : List (String × List ℚ)) : List ((String × String) × α) :=
  (pairsOf (featureList.map Prod.fst)).map fun pr =>
    (pr, test ((alookup pr.1 featureList).getD []) ((alookup pr.2 featureList).getD []))

/-- The `calc_synt` method: its body is `pass`, so it returns `None`
whatever its arguments are. -/
def calcSynt (_tot : Nat) (_proteins : List (String × Hit)) : Option ℚ :=
  none

/-- Lookup `best_hits[genome_name]` (a `KeyError` when absent) followed
by a membership-style lookup of a protein id in it. -/
def bhLookup (bestHits : BlastTable) (gname pid : String) :
    Except String (Option (List (String × Hit))) :=
  match alookup gname bestHits with
  | none => Except.error "KeyError: genome name not in best hits"
  | some bhg => Except.ok (alookup pid bhg)

/-- One iteration of the position loop of `_synteny`. `envDid` is the
state of the Python local variable `downstream_id`, which is bound only
by the downstream branch of some earlier iteration; the upstream branch
reads it (`best_hits[genome.name][downstream_id]`, the slip the spec
flags), which is a `NameError` while it is unbound. Returns the
iteration's `(upstream_synt, downstream_synt)` pair and the new state of
`downstream_id`. -/
def syntenyStep (bestHits : BlastTable) (gname : String) (order : List (Int × String))
    (tot : Nat) (envDid : Option String) (position : Int) :
    Except String ((Option ℚ) × (Option ℚ) × Option String) := do
  let upSynt ←
    match alookup (position - 1) order with
    | some upstreamId => do
      let memUp ← bhLookup bestHits gname upstreamId
      match memUp with
      | some _ =>
        match envDid with
        | none => Except.error "NameError: name downstream_id is not defined"
        | some did => do
          let memDid ← bhLookup bestHits gname did
          match memDid with
          | some upBestHits => Except.ok (calcSynt tot upBestHits)
          | none => Except.error "KeyError: downstream_id not in best hits"
      | none => Except.ok (some 1)
    | none => Except.ok (some 1)
  match alookup (position + 1) order with
  | some downstreamId => do
    let memDown ← bhLookup bestHits gname downstreamId
    match memDown with
    | some downBestHits => Except.ok (upSynt, calcSynt tot downBestHits, some downstreamId)
    | none => Except.ok (upSynt, some 1, some downstreamId)
  | none => Except.ok (upSynt, some 1, envDid)

/-- The per-genome part of the `_synteny` loop: iterate the position →
protein map in insertion order, threading the `downstream_id` binding,
and collect each position's `(upstream_synt, downstream_synt)` pair
(which the source computes and then discards). -/
def syntenyGenome (bestHits : BlastTable) (genome : Genome) (tot : Nat) :
    Except String (List ((Option ℚ) × (Option ℚ))) := do
  let res ← genome.proteinOrderedDict.foldlM
    (fun (st : List ((Option ℚ) × (Option ℚ)) × Option String) pos => do
      let r ← syntenyStep bestHits genome.name genome.proteinOrderedDict tot st.2 pos.1
      Except.ok (st.1 ++ [(r.1, r.2.1)], r.2.2))
    ([], none)
  Except.ok res.1

/-! Helper lemmas. -/

theorem length_filter_add_length_filter_not {α : Type} (l : List α) (p : α → Prop)
    [DecidablePred p] :
    (l.filter fun a => p a).length + (l.filter fun a => ¬ p a).length = l.length := by
  induction l with
  | nil => simp
  | cons x xs ih =>
    simp only [List.filter_cons, decide_not] at ih ⊢
    by_cases h : p x <;> simp [h] <;> omega

theorem combinationsL_one {α : Type} (l : List α) :
    combinationsL 1 l = l.map fun x => [x] := by
  induction l with
  | nil => rfl
  | cons x xs ih => simp [combinationsL, ih]

theorem length_filter_mem_finset (l : List String) (F : Finset String) (hnd : l.Nodup)
    (hsub : ∀ x ∈ F, x ∈ l) :
    (l.filter fun o => o ∈ F).length = F.card := by
  have h1 : (l.filter fun o => o ∈ F).toFinset = F := by
    ext x
    simp only [List.mem_toFinset, List.mem_filter, decide_eq_true_eq]
    exact ⟨fun h => h.2, fun h => ⟨hsub x h, h⟩⟩
  have h2 : (l.filter fun o => o ∈ F).length = (l.filter fun o => o ∈ F).toFinset.card :=
    (List.toFinset_card_of_nodup (hnd.filter _)).symm
  rw [h2, h1]

/-! Theorems for the claims. -/

/-- C2: for every non-empty genome list, every subset size `k` between 1
and the list length, and every `k`-element combination enumerated by
`saturate` (via `combinationsL`), the per-combination core count plus
accessory count equals the size of the (duplicate-free) ortholog
universe passed in. -/
theorem saturate_core_accessory_sum (genomesList : List Genome) (orthologs : List String)
    (k : Nat) (c : List Genome) (_hne : genomesList ≠ []) (_hnd : orthologs.Nodup)
    (_hk1 : 1 ≤ k) (_hk2 : k ≤ genomesList.length) (_hc : c ∈ combinationsL k genomesList) :
    coreCount c orthologs + accessoryCount c orthologs = orthologs.length := by
  unfold coreCount accessoryCount
  exact length_filter_add_length_filter_not orthologs _

/-- Witness for C2 at a concrete input: two genomes sharing one of three
orthologs; the full-size combination has core count 1 and accessory
count 2, summing to the universe size 3. -/
theorem saturate_core_accessory_sum_witness :
    (([⟨"g1", [], ∅, {"a", "b"}, []⟩, ⟨"g2", [], ∅, {"b", "c"}, []⟩] : List Genome) ≠ []) ∧
    (["a", "b", "c"] : List String).Nodup ∧
    ([⟨"g1", [], ∅, {"a", "b"}, []⟩, ⟨"g2", [], ∅, {"b", "c"}, []⟩] : List Genome) ∈
      combinationsL 2 [⟨"g1", [], ∅, {"a", "b"}, []⟩, ⟨"g2", [], ∅, {"b", "c"}, []⟩] ∧
    coreCount [⟨"g1", [], ∅, {"a", "b"}, []⟩, ⟨"g2", [], ∅, {"b", "c"}, []⟩] ["a", "b", "c"] +
      accessoryCount [⟨"g1", [], ∅, {"a", "b"}, []⟩, ⟨"g2", [], ∅, {"b", "c"}, []⟩]
        ["a", "b", "c"] = 3 :=
  ⟨by decide, by decide, by decide,
    saturate_core_accessory_sum
      [⟨"g1", [], ∅, {"a", "b"}, []⟩, ⟨"g2", [], ∅, {"b", "c"}, []⟩] ["a", "b", "c"] 2
      [⟨"g1", [], ∅, {"a", "b"}, []⟩, ⟨"g2", [], ∅, {"b", "c"}, []⟩]
      (by decide) (by decide) (by decide) (by decide) (by decide)⟩

/-- C3: when every member genome's ortholog set is contained in the
duplicate-free ortholog universe, each size-1 combination considered by
`saturate` is a singleton `[g]` whose core count is `g`'s own ortholog
count and whose accessory count is the universe size minus it. -/
theorem saturate_singleton_counts (genomesList : List Genome) (orthologs : List String)
    (hnd : orthologs.Nodup)
    (hsub : ∀ g ∈ genomesList, ∀ x ∈ g.orthologs, x ∈ orthologs)
    (c : List Genome) (hc : c ∈ combinationsL 1 genomesList) :
    ∃ g ∈ genomesList, c = [g] ∧
      coreCount c orthologs = g.orthologs.card ∧
      accessoryCount c orthologs = orthologs.length - g.orthologs.card := by
  rw [combinationsL_one] at hc
  obtain ⟨g, hg, rfl⟩ := List.mem_map.mp hc
  refine ⟨g, hg, rfl, ?_, ?_⟩
  · have hpred : ∀ o ∈ orthologs,
        (decide (hitsCount [g] o = ([g] : List Genome).length)) = decide (o ∈ g.orthologs) := by
      intro o _
      by_cases hmem : o ∈ g.orthologs <;> simp [hitsCount, List.filter_cons, hmem]
    unfold coreCount
    rw [List.filter_congr hpred]
    exact length_filter_mem_finset orthologs g.orthologs hnd (hsub g hg)
  · have hsum := length_filter_add_length_filter_not orthologs
      (fun o => hitsCount [g] o = ([g] : List Genome).length)
    have hcore : coreCount [g] orthologs = g.orthologs.card := by
      have hpred : ∀ o ∈ orthologs,
          (decide (hitsCount [g] o = ([g] : List Genome).length)) = decide (o ∈ g.orthologs) := by
        intro o _
        by_cases hmem : o ∈ g.orthologs <;> simp [hitsCount, List.filter_cons, hmem]
      unfold coreCount
      rw [List.filter_congr hpred]
      exact length_filter_mem_finset orthologs g.orthologs hnd (hsub g hg)
    unfold accessoryCount
    unfold coreCount at hcore
    omega

/-- Witness for C3 at a concrete input: the singleton combination of a
genome with 2 of the 3 universe orthologs has core count 2 and accessory
count 1. -/
theorem saturate_singleton_counts_witness :
    (["a", "b", "c"] : List String).Nodup ∧
    (∃ g ∈ ([⟨"g1", [], ∅, {"a", "b"}, []⟩, ⟨"g2", [], ∅, {"b", "c"}, []⟩] : List Genome),
      ([⟨"g1", [], ∅, {"a", "b"}, []⟩] : List Genome) = [g] ∧
      coreCount [⟨"g1", [], ∅, {"a", "b"}, []⟩] ["a", "b", "c"] = g.orthologs.card ∧
      accessoryCount [⟨"g1", [], ∅, {"a", "b"}, []⟩] ["a", "b", "c"] =
        (["a", "b", "c"] : List String).length - g.orthologs.card) :=
  ⟨by decide,
    saturate_singleton_counts [⟨"g1", [], ∅, {"a", "b"}, []⟩, ⟨"g2", [], ∅, {"b", "c"}, []⟩]
      ["a", "b", "c"] (by decide) (by decide) [⟨"g1", [], ∅, {"a", "b"}, []⟩] (by decide)⟩

theorem lookup3_eq_some_iff (tbl : BlastTable) (g s hg : String) (p : Hit) :
    lookup3 tbl g s hg = some p ↔
      ∃ t1 t2, alookup g tbl = some t1 ∧ alookup s t1 = some t2 ∧ alookup hg t2 = some p := by
  unfold lookup3
  cases h1 : alookup g tbl with
  | none => simp [h1]
  | some t1 =>
    cases h2 : alookup s t1 with
    | none => simp [h1, h2]
    | some t2 => simp [h1, h2]

/-- C6: the effective `gather_stats` returns, for every non-empty number
list, exactly seven statistics in the order mean, median, standard
deviation, minimum, maximum, 90th percentile, 10th percentile; in
particular, for `[1,2,3,4,5]` the mean is 3, the median 3, the minimum 1
and the maximum 5. -/
theorem gather_stats_seven (l : List ℚ) (_h : l ≠ []) :
    (gatherStats l).length = 7 ∧
    gatherStats l = [(npMean l : ℝ), (npMedian l : ℝ), npStd l, (npMin l : ℝ), (npMax l : ℝ),
      (npPercentile l 90 : ℝ), (npPercentile l 10 : ℝ)] ∧
    npMean [1, 2, 3, 4, 5] = 3 ∧ npMedian [1, 2, 3, 4, 5] = 3 ∧
    npMin [1, 2, 3, 4, 5] = 1 ∧ npMax [1, 2, 3, 4, 5] = 5 := by
  refine ⟨rfl, rfl, ?_, ?_, ?_, ?_⟩ <;>
    norm_num [npMean, npMedian, npMin, npMax, sortRat, insertSorted]

/-- Witness for C6 at the concrete input `[1,2,3,4,5]`. -/
theorem gather_stats_seven_witness :
    (gatherStats [1, 2, 3, 4, 5]).length = 7 ∧
    gatherStats [1, 2, 3, 4, 5] = [(npMean [1, 2, 3, 4, 5] : ℝ), (npMedian [1, 2, 3, 4, 5] : ℝ),
      npStd [1, 2, 3, 4, 5], (npMin [1, 2, 3, 4, 5] : ℝ), (npMax [1, 2, 3, 4, 5] : ℝ),
      (npPercentile [1, 2, 3, 4, 5] 90 : ℝ), (npPercentile [1, 2, 3, 4, 5] 10 : ℝ)] ∧
    npMean [1, 2, 3, 4, 5] = 3 ∧ npMedian [1, 2, 3, 4, 5] = 3 ∧
    npMin [1, 2, 3, 4, 5] = 1 ∧ npMax [1, 2, 3, 4, 5] = 5 :=
  gather_stats_seven [1, 2, 3, 4, 5] (by simp)

/-- Counterexample to C7 as stated: an alignment input whose only record
carries the non-numeric e-value field `ZZZ` (rejected by `float`) is
parsed without any error; the record is retained with the raw string. -/
theorem parse_blast_malformed_counterexample :
    parseFloat "ZZZ" = none ∧
    parseBlast ["g1~s1\tg2~t1\t90\t100\t0\t0\t1\t100\t1\t100\tZZZ\t200"]
      = .ok [("g1", [("s1", [("g2", ⟨"g2", "t1", "ZZZ"⟩)])])] := by
  decide

/-- C7 as amended: a record that fails field splitting (wrong field
count, or a composite id that does not split in two) aborts the parse at
that line with its parsing error, whatever comes after; a non-numeric
e-value aborts the parse only when a record for an already-present
(query genome, query sequence, hit genome) triple forces the float
conversion. -/
theorem parse_blast_malformed_behavior :
    (∀ pre mid line post msg, parseBlast pre = .ok mid → parseBlastLine line = .error msg →
      parseBlast (pre ++ line :: post) = .error msg) ∧
    (∀ lines tbl line r p, parseBlast lines = .ok tbl → parseBlastLine line = .ok r →
      lookup3 tbl r.genome r.seqid r.hitGenome = some p → parseFloat r.evalue = none →
      parseBlast (lines ++ [line]) = .error "ValueError: could not convert string to float") := by
  constructor
  · intro pre mid line post msg hpre hbad
    unfold parseBlast at hpre ⊢
    rw [List.foldlM_append, hpre]
    show (List.foldlM parseBlastStep mid (line :: post)) = _
    rw [List.foldlM_cons]
    have hstep : parseBlastStep mid line = .error msg := by
      unfold parseBlastStep
      rw [hbad]
      rfl
    rw [hstep]
    rfl
  · intro lines tbl line r p hok hline hfound hfloat
    obtain ⟨t1, t2, h1, h2, h3⟩ := (lookup3_eq_some_iff tbl r.genome r.seqid r.hitGenome p).mp hfound
    unfold parseBlast at hok ⊢
    rw [List.foldlM_append, hok]
    show (List.foldlM parseBlastStep tbl [line]) = _
    rw [List.foldlM_cons]
    have hstep : parseBlastStep tbl line
        = .error "ValueError: could not convert string to float" := by
      unfold parseBlastStep
      rw [hline]
      show (match alookup r.genome tbl with
        | none => _
        | some seqTbl => _) = _
      simp only [h1, h2, h3, hfloat]
    rw [hstep]
    rfl

/-- Witness for the amended C7: a two-field line aborts with the
field-count error even with a valid line after it, and a second record
for the same triple with e-value `ZZZ` aborts with the float-conversion
error. -/
theorem parse_blast_malformed_behavior_witness :
    parseBlast (([] : List String) ++
        "short\tline" :: ["g1~s1\tg2~t1\t9\t1\t0\t0\t1\t1\t1\t1\t1\t2"])
      = .error "ValueError: line does not unpack into twelve fields" ∧
    parseBlast (["g1~s1\tg2~t1\t9\t1\t0\t0\t1\t1\t1\t1\t0.5\t2"] ++
        ["g1~s1\tg2~t2\t9\t1\t0\t0\t1\t1\t1\t1\tZZZ\t2"])
      = .error "ValueError: could not convert string to float" :=
  ⟨parse_blast_malformed_behavior.1 [] [] "short\tline"
      ["g1~s1\tg2~t1\t9\t1\t0\t0\t1\t1\t1\t1\t1\t2"]
      "ValueError: line does not unpack into twelve fields" (by decide) (by decide),
    parse_blast_malformed_behavior.2 ["g1~s1\tg2~t1\t9\t1\t0\t0\t1\t1\t1\t1\t0.5\t2"]
      [("g1", [("s1", [("g2", ⟨"g2", "t1", "0.5"⟩)])])]
      "g1~s1\tg2~t2\t9\t1\t0\t0\t1\t1\t1\t1\tZZZ\t2"
      ⟨"g1", "s1", "g2", "t2", "ZZZ"⟩ ⟨"g2", "t1", "0.5"⟩
      (by decide) (by decide) (by decide) (by decide)⟩

/-- C8 evaluated at the failing input (the claim is right and the code
wrong: the upstream branch reads `downstream_id`, bound only by the
downstream branch of an earlier iteration). First conjunct: a genome
whose first iterated position has an in-map upstream neighbour with a
best hit raises `NameError` instead of scoring from the upstream
protein's best-hit set. Second conjunct: when neither neighbour position
is in the order map, both synteny values default to 1 as the claim
says. -/
theorem synteny_upstream_bug :
    syntenyGenome [("g", [("p1", [("h", ⟨"h", "x", "0.5"⟩)])])]
      ⟨"g", [], ∅, ∅, [(2, "p2"), (1, "p1")]⟩ 1
      = .error "NameError: name downstream_id is not defined" ∧
    syntenyGenome [("g", [("p1", [("h", ⟨"h", "x", "0.5"⟩)])])]
      ⟨"g", [], ∅, ∅, [(5, "p9")]⟩ 1 = .ok [(some 1, some 1)] := by
  decide

/-- Counterexample to C4 as stated: a single-genome group whose genome
has 2 ortholog clusters but 4 sequences gets core size 2 (the cluster
count, as claimed) but percent 50.00, not 100.00 — the percent is the
core size over the mean sequence count, which need not be 100 for a
singleton group. -/
theorem pan_genome_counterexample :
    panGenome
      [("g", ⟨"g", [("s1", ""), ("s2", ""), ("s3", ""), ("s4", "")], {"c1", "c2"}, ∅, []⟩)]
      [("A", ["g"])] = .ok [("A", (2, 50))] ∧ (50 : ℚ) ≠ 100 := by
  constructor
  · simp only [panGenome, List.foldlM_cons, List.foldlM_nil, List.mapM_cons, List.mapM_nil,
      alookup, aupdate, bind, Except.bind, pure, Except.pure, if_true, reduceIte]
    have hcard : (({"c1", "c2"} : Finset String) : Finset String).card = 2 := by decide
    norm_num [hcard, round2, roundHalfEven]
  · norm_num

/-- C4 as amended: for a single-genome group, `_pan_genome` reports core
size equal to the genome's own cluster count, and percent equal to
`round(cluster count / sequence count * 100, 2)` — which is exactly
100.00 precisely when the cluster count equals the sequence count. -/
theorem pan_genome_singleton (genomeDict : List (String × Genome)) (label name : String)
    (g : Genome) (hlook : alookup name genomeDict = some g) (hseq : g.sequences ≠ []) :
    panGenome genomeDict [(label, [name])]
      = .ok [(label, (g.clusters.card,
          round2 ((g.clusters.card : ℚ) / (g.sequences.length : ℚ) * 100)))] ∧
    (g.clusters.card = g.sequences.length →
      round2 ((g.clusters.card : ℚ) / (g.sequences.length : ℚ) * 100) = 100) := by
  have hlen : (g.sequences.length : ℚ) ≠ 0 := by
    simpa using fun h => hseq (List.length_eq_zero.mp h)
  constructor
  · simp only [panGenome, List.foldlM_cons, List.foldlM_nil, List.mapM_cons, List.mapM_nil,
      hlook, bind, Except.bind, pure, Except.pure, List.foldl_nil, List.map_cons, List.map_nil,
      List.sum_cons, List.sum_nil, List.length_cons, List.length_nil, aupdate]
    norm_num
  · intro hcl
    rw [hcl, div_self hlen]
    norm_num [round2, roundHalfEven]

/-- Witness for the amended C4: a genome with 2 clusters and 2 sequences
in a singleton group gets core size 2 and percent exactly 100. -/
theorem pan_genome_singleton_witness :
    panGenome [("g", ⟨"g", [("s1", ""), ("s2", "")], {"c1", "c2"}, ∅, []⟩)] [("A", ["g"])]
      = .ok [("A", (({"c1", "c2"} : Finset String).card,
          round2 ((({"c1", "c2"} : Finset String).card : ℚ) /
            (([("s1", ""), ("s2", "")] : List (String × String)).length : ℚ) * 100)))] ∧
    ((({"c1", "c2"} : Finset String) : Finset String).card
        = ([("s1", ""), ("s2", "")] : List (String × String)).length →
      round2 ((({"c1", "c2"} : Finset String).card : ℚ) /
        (([("s1", ""), ("s2", "")] : List (String × String)).length : ℚ) * 100) = 100) :=
  pan_genome_singleton [("g", ⟨"g", [("s1", ""), ("s2", "")], {"c1", "c2"}, ∅, []⟩)] "A" "g"
    ⟨"g", [("s1", ""), ("s2", "")], {"c1", "c2"}, ∅, []⟩ (by decide) (by decide)

theorem pairsOf_mem {α : Type} (l : List α) (e : α × α) (he : e ∈ pairsOf l) :
    e.1 ∈ l ∧ e.2 ∈ l := by
  induction l with
  | nil => cases he
  | cons x xs ih =>
    simp only [pairsOf, List.mem_append, List.mem_map] at he
    rcases he with ⟨y, hy, rfl⟩ | h
    · exact ⟨List.mem_cons_self x xs, List.mem_cons_of_mem x hy⟩
    · exact ⟨List.mem_cons_of_mem x (ih h).1, List.mem_cons_of_mem x (ih h).2⟩

theorem pairsOf_countP_unordered {α : Type} [DecidableEq α] (l : List α) (hnd : l.Nodup)
    (a b : α) (ha : a ∈ l) (hb : b ∈ l) (hab : a ≠ b) :
    (pairsOf l).countP (fun e => decide (e = (a, b) ∨ e = (b, a))) = 1 := by
  induction l with
  | nil => cases ha
  | cons x xs ih =>
    have hx : x ∉ xs := (List.nodup_cons.mp hnd).1
    have hnd' : xs.Nodup := (List.nodup_cons.mp hnd).2
    simp only [pairsOf, List.countP_append, List.countP_map]
    by_cases hax : a = x
    · subst hax
      have hbxs : b ∈ xs := by
        rcases List.mem_cons.mp hb with h | h
        · exact absurd h.symm hab
        · exact h
      have h1 : List.countP
          ((fun e => decide (e = (a, b) ∨ e = (b, a))) ∘ fun y => (a, y)) xs = 1 := by
        have hcg : List.countP
            ((fun e => decide (e = (a, b) ∨ e = (b, a))) ∘ fun y => (a, y)) xs
            = List.countP (fun y => y == b) xs := by
          refine List.countP_congr ?_
          intro y _
          simp only [Function.comp, decide_eq_true_eq, Prod.mk.injEq, beq_iff_eq]
          constructor
          · rintro (⟨_, rfl⟩ | ⟨hba, _⟩)
            · rfl
            · exact absurd hba hab
          · rintro rfl
            exact Or.inl ⟨trivial, rfl⟩
        rw [hcg]
        exact List.count_eq_one_of_mem hnd' hbxs
      have h2 : (pairsOf xs).countP (fun e => decide (e = (a, b) ∨ e = (b, a))) = 0 := by
        rw [List.countP_eq_zero]
        intro e he
        have hmem := pairsOf_mem xs e he
        simp only [decide_eq_true_eq]
        rintro (rfl | rfl)
        · exact hx hmem.1
        · exact hx hmem.2
      omega
    · by_cases hbx : b = x
      · subst hbx
        have haxs : a ∈ xs := (List.mem_cons.mp ha).resolve_left hax
        have h1 : List.countP
            ((fun e => decide (e = (a, b) ∨ e = (b, a))) ∘ fun y => (b, y)) xs = 1 := by
          have hcg : List.countP
              ((fun e => decide (e = (a, b) ∨ e = (b, a))) ∘ fun y => (b, y)) xs
              = List.countP (fun y => y == a) xs := by
            refine List.countP_congr ?_
            intro y _
            simp only [Function.comp, decide_eq_true_eq, Prod.mk.injEq, beq_iff_eq]
            constructor
            · rintro (⟨hba, _⟩ | ⟨_, rfl⟩)
              · exact absurd hba.symm hax
              · rfl
            · rintro rfl
              exact Or.inr ⟨trivial, rfl⟩
          rw [hcg]
          exact List.count_eq_one_of_mem hnd' haxs
        have h2 : (pairsOf xs).countP (fun e => decide (e = (a, b) ∨ e = (b, a))) = 0 := by
          rw [List.countP_eq_zero]
          intro e he
          have hmem := pairsOf_mem xs e he
          simp only [decide_eq_true_eq]
          rintro (rfl | rfl)
          · exact hx hmem.2
          · exact hx hmem.1
        omega
      · have haxs : a ∈ xs := (List.mem_cons.mp ha).resolve_left hax
        have hbxs : b ∈ xs := (List.mem_cons.mp hb).resolve_left hbx
        have h1 : List.countP
            ((fun e => decide (e = (a, b) ∨ e = (b, a))) ∘ fun y => (x, y)) xs = 0 := by
          rw [List.countP_eq_zero]
          intro y _
          simp only [Function.comp, decide_eq_true_eq, Prod.mk.injEq]
          rintro (⟨hxa, _⟩ | ⟨hxb, _⟩)
          · exact hax hxa.symm
          · exact hbx hxb.symm
        have h2 := ih hnd' haxs hbxs
        omega

/-- C9 as amended: `run_mannwhitneyu` invokes the external test once for
every unordered pair of distinct group labels and records exactly one
result entry per such pair; it performs no zero-observation check of its
own and has no error path, so whatever the total external test returns
on an empty group is recorded silently. -/
theorem run_mannwhitneyu_every_pair {α : Type} (test : List ℚ → List ℚ → α)
    (fl : List (String × List ℚ)) (hnd : (fl.map Prod.fst).Nodup)
    (a b : String) (ha : a ∈ fl.map Prod.fst) (hb : b ∈ fl.map Prod.fst) (hab : a ≠ b) :
    (runMannwhitneyu test fl).countP
      (fun e => decide (e.1 = (a, b) ∨ e.1 = (b, a))) = 1 := by
  unfold runMannwhitneyu
  rw [List.countP_map]
  exact pairsOf_countP_unordered _ hnd a b ha hb hab

/-- Witness for the amended C9 at a concrete input including a group
with zero observations. -/
theorem run_mannwhitneyu_every_pair_witness :
    (runMannwhitneyu mannwhitneyuU [("a", [1]), ("b", [2]), ("c", [])]).countP
      (fun e => decide (e.1 = ("a", "c") ∨ e.1 = ("c", "a"))) = 1 :=
  run_mannwhitneyu_every_pair mannwhitneyuU [("a", [1]), ("b", [2]), ("c", [])]
    (by decide) "a" "c" (by decide) (by decide) (by decide)

/-- Counterexample to C9 as stated: with a zero-observation group
(`"a"`), `run_mannwhitneyu` does not surface any error — it silently
records the external test's value for the pair (the modelled rank-based
U statistic is 0 here; the source has no error path at all). -/
theorem run_mannwhitneyu_counterexample :
    runMannwhitneyu mannwhitneyuU [("a", []), ("b", [1])] = [(("a", "b"), 0)] := by
  simp only [runMannwhitneyu, pairsOf, mannwhitneyuU, alookup, List.map_cons, List.map_nil,
    List.append_nil, List.sum_nil, List.sum_cons, List.length_nil, List.length_cons]
  norm_num

theorem alookup_aupdate {κ α : Type} [DecidableEq κ] (k k' : κ) (v : α) (l : List (κ × α)) :
    alookup k (aupdate k' v l) = if k = k' then some v else alookup k l := by
  induction l with
  | nil =>
    by_cases h : k = k' <;> simp [aupdate, alookup, h]
  | cons e rest ih =>
    obtain ⟨k1, v1⟩ := e
    by_cases h1 : k1 = k'
    · subst h1
      by_cases h2 : k = k1 <;> simp [aupdate, alookup, h2]
    · by_cases h2 : k = k1
      · subst h2
        simp [aupdate, alookup, h1, Ne.symm h1]
      · simp [aupdate, alookup, h1, h2, ih]

theorem aupdate_of_alookup_none {κ α : Type} [DecidableEq κ] (k : κ) (v : α)
    (l : List (κ × α)) (h : alookup k l = none) : aupdate k v l = l ++ [(k, v)] := by
  induction l with
  | nil => rfl
  | cons e rest ih =>
    obtain ⟨k1, v1⟩ := e
    by_cases h1 : k = k1
    · simp [alookup, h1] at h
    · simp only [alookup, if_neg h1] at h
      have h2 : ¬ k1 = k := fun hh => h1 hh.symm
      simp [aupdate, h2, ih h]

theorem aupdate_decomp {κ α : Type} [DecidableEq κ] (k : κ) (v gs : α) (l : List (κ × α))
    (h : alookup k l = some gs) :
    ∃ l1 l2, l = l1 ++ (k, gs) :: l2 ∧ aupdate k v l = l1 ++ (k, v) :: l2 := by
  induction l with
  | nil => cases h
  | cons e rest ih =>
    obtain ⟨k1, v1⟩ := e
    by_cases h1 : k = k1
    · subst h1
      have h' : v1 = gs := by simpa [alookup] using h
      subst h'
      exact ⟨[], rest, rfl, by simp [aupdate]⟩
    · simp only [alookup, if_neg h1] at h
      obtain ⟨l1, l2, hdec, hupd⟩ := ih h
      refine ⟨(k1, v1) :: l1, l2, by rw [hdec]; rfl, ?_⟩
      have h2 : ¬ k1 = k := fun hh => h1 hh.symm
      simp [aupdate, h2, hupd]

theorem mem_linsert (x y : String) (l : List String) :
    x ∈ linsert y l ↔ x ∈ l ∨ x = y := by
  unfold linsert
  by_cases h : y ∈ l
  · simp only [if_pos h]
    constructor
    · exact Or.inl
    · rintro (hx | rfl)
      · exact hx
      · exact h
  · simp [if_neg h, List.mem_append, or_comm]

theorem metaName_split (line : String) (g gr : String)
    (h : metaName line = some (g, gr)) :
    strSplitOn '\t' (String.mk (trimChars line.toList)) = [g, gr] := by
  unfold metaName at h
  cases hs : strSplitOn '\t' (String.mk (trimChars line.toList)) with
  | nil => rw [hs] at h; cases h
  | cons x t =>
    cases t with
    | nil => rw [hs] at h; cases h
    | cons y t2 =>
      cases t2 with
      | nil =>
        rw [hs] at h
        simp only [Option.some.injEq, Prod.mk.injEq] at h
        rw [h.1, h.2]
      | cons z t3 => rw [hs] at h; cases h

theorem metadataStep_ok (st : List (String × List String) × List String) (line g gr : String)
    (hline : metaName line = some (g, gr)) (hfresh : g ∉ st.2) :
    ∃ m1, metadataStep st line = .ok (m1, st.2 ++ [g]) ∧
      ((∀ gname, st.1.countP (fun e => decide (gname ∈ e.2)) = if gname ∈ st.2 then 1 else 0) →
        ∀ gname, m1.countP (fun e => decide (gname ∈ e.2))
          = if gname ∈ st.2 ++ [g] then 1 else 0) := by
  simp only [metadataStep, metaName_split line g gr hline, if_neg hfresh]
  cases hl : alookup gr st.1 with
  | none =>
    refine ⟨aupdate gr [g] st.1, rfl, ?_⟩
    intro hinv gname
    rw [aupdate_of_alookup_none gr [g] st.1 hl, List.countP_append]
    by_cases hg : gname = g
    · subst hg
      have h0 : st.1.countP (fun e => decide (gname ∈ e.2)) = 0 := by
        rw [hinv]
        simp [hfresh]
      simp [h0, List.countP_singleton, List.mem_append]
    · have hv := hinv gname
      simp [List.countP_singleton, hg, List.mem_append, hv]
  | some gs =>
    obtain ⟨l1, l2, hdec, hupd⟩ := aupdate_decomp gr (linsert g gs) gs st.1 hl
    refine ⟨aupdate gr (linsert g gs) st.1, rfl, ?_⟩
    intro hinv gname
    rw [hupd]
    by_cases hg : gname = g
    · subst hg
      have h0 : st.1.countP (fun e => decide (gname ∈ e.2)) = 0 := by
        rw [hinv]
        simp [hfresh]
      rw [hdec] at h0
      have hmem : gname ∈ linsert gname gs := (mem_linsert gname gname gs).mpr (Or.inr rfl)
      by_cases hgs : gname ∈ gs
      · exfalso
        simp [List.countP_append, List.countP_cons, hgs] at h0
      · simp only [List.countP_append, List.countP_cons, decide_eq_true_eq, hgs] at h0
        simp only [List.countP_append, List.countP_cons, decide_eq_true_eq, hmem,
          List.mem_append, List.mem_singleton, or_true, if_true]
        omega
    · have hlin : gname ∈ linsert g gs ↔ gname ∈ gs := by
        constructor
        · intro hmm
          rcases (mem_linsert gname g gs).mp hmm with h | h
          · exact h
          · exact absurd h hg
        · intro hmm
          exact (mem_linsert gname g gs).mpr (Or.inl hmm)
      have hv := hinv gname
      rw [hdec] at hv
      simp only [List.countP_append, List.countP_cons, decide_eq_true_eq] at hv ⊢
      simp only [hlin]
      have hmm : (gname ∈ st.2 ++ [g]) ↔ gname ∈ st.2 := by
        simp [List.mem_append, hg]
      simp only [hmm]
      omega

theorem metadata_fold_ok (lines : List String) :
    ∀ (st : List (String × List String) × List String),
    (∀ l ∈ lines, (metaName l).isSome) →
    (st.2 ++ metaNames lines).Nodup →
    (∀ gname, st.1.countP (fun e => decide (gname ∈ e.2)) = if gname ∈ st.2 then 1 else 0) →
    ∃ m, lines.foldlM metadataStep st = .ok (m, st.2 ++ metaNames lines) ∧
      ∀ gname, m.countP (fun e => decide (gname ∈ e.2))
        = if gname ∈ st.2 ++ metaNames lines then 1 else 0 := by
  induction lines with
  | nil =>
    intro st _ _ hinv
    refine ⟨st.1, ?_, by simpa [metaNames] using hinv⟩
    simp only [metaNames, List.filterMap_nil, List.append_nil, List.foldlM_nil]
    rfl
  | cons l ls ih =>
    intro st hwf hnd hinv
    obtain ⟨⟨g, gr⟩, hline⟩ := Option.isSome_iff_exists.mp (hwf l (List.mem_cons_self _ _))
    have hnames : metaNames (l :: ls) = g :: metaNames ls := by
      simp [metaNames, List.filterMap_cons, hline]
    rw [hnames] at hnd ⊢
    have hfresh : g ∉ st.2 := by
      intro hmem
      exact List.disjoint_of_nodup_append hnd hmem (List.mem_cons_self _ _)
    obtain ⟨m1, hstep, hcounts⟩ := metadataStep_ok st l g gr hline hfresh
    have hnd1 : ((st.2 ++ [g]) ++ metaNames ls).Nodup := by
      rw [List.append_assoc]
      simpa using hnd
    obtain ⟨m, hfold, hinvm⟩ :=
      ih (m1, st.2 ++ [g]) (fun l' hl' => hwf l' (List.mem_cons_of_mem _ hl')) hnd1
        (hcounts hinv)
    refine ⟨m, ?_, ?_⟩
    · rw [List.foldlM_cons, hstep]
      show ls.foldlM metadataStep (m1, st.2 ++ [g]) = _
      rw [hfold]
      simp [List.append_assoc]
    · intro gname
      have := hinvm gname
      rwa [List.append_assoc, List.singleton_append] at this

theorem metadata_fold_dup (lines : List String) :
    ∀ (st : List (String × List String) × List String),
    (∀ l ∈ lines, (metaName l).isSome) → st.2.Nodup →
    ¬ (st.2 ++ metaNames lines).Nodup →
    ∃ g, lines.foldlM metadataStep st
      = .error ("Duplicate entry in metadata file: " ++ g) := by
  induction lines with
  | nil =>
    intro st _ hsnd hdup
    exact absurd (by simpa [metaNames] using hsnd) hdup
  | cons l ls ih =>
    intro st hwf hsnd hdup
    obtain ⟨⟨g, gr⟩, hline⟩ := Option.isSome_iff_exists.mp (hwf l (List.mem_cons_self _ _))
    have hnames : metaNames (l :: ls) = g :: metaNames ls := by
      simp [metaNames, List.filterMap_cons, hline]
    rw [hnames] at hdup
    by_cases hfresh : g ∈ st.2
    · refine ⟨g, ?_⟩
      have hstep : metadataStep st l
          = .error ("Duplicate entry in metadata file: " ++ g) := by
        simp only [metadataStep, metaName_split l g gr hline, if_pos hfresh]
      rw [List.foldlM_cons, hstep]
      rfl
    · obtain ⟨m1, hstep, _⟩ := metadataStep_ok st l g gr hline hfresh
      have hsnd1 : (st.2 ++ [g]).Nodup := by
        rw [List.nodup_append]
        exact ⟨hsnd, List.nodup_singleton g, by
          intro x hx hxg
          rw [List.mem_singleton] at hxg
          exact hfresh (hxg ▸ hx)⟩
      have hdup1 : ¬ ((st.2 ++ [g]) ++ metaNames ls).Nodup := by
        rw [List.append_assoc, List.singleton_append]
        exact hdup
      obtain ⟨gbad, herr⟩ :=
        ih (m1, st.2 ++ [g]) (fun l' hl' => hwf l' (List.mem_cons_of_mem _ hl')) hsnd1 hdup1
      refine ⟨gbad, ?_⟩
      rw [List.foldlM_cons, hstep]
      show ls.foldlM metadataStep (m1, st.2 ++ [g]) = _
      exact herr

/-- C5: over well-formed metadata lines, if some genome name occurs on
two or more lines then `_metadata_parser` raises the duplicate-entry
error; if no genome name repeats, the parse succeeds and every genome
name of the input belongs to exactly one group's set of the returned
mapping. -/
theorem metadata_parser_duplicates (lines : List String)
    (hwf : ∀ l ∈ lines, (metaName l).isSome) :
    (¬ (metaNames lines).Nodup →
      ∃ g, parseMetadata lines = .error ("Duplicate entry in metadata file: " ++ g)) ∧
    ((metaNames lines).Nodup →
      ∃ m, parseMetadata lines = .ok m ∧
        ∀ g ∈ metaNames lines, m.countP (fun e => decide (g ∈ e.2)) = 1) := by
  constructor
  · intro hdup
    obtain ⟨g, herr⟩ := metadata_fold_dup lines ([], []) hwf (List.nodup_nil)
      (by simpa using hdup)
    refine ⟨g, ?_⟩
    unfold parseMetadata
    rw [herr]
    rfl
  · intro hnd
    obtain ⟨m, hfold, hinv⟩ := metadata_fold_ok lines ([], []) hwf (by simpa using hnd)
      (by intro gname; simp)
    refine ⟨m, ?_, ?_⟩
    · unfold parseMetadata
      rw [hfold]
      rfl
    · intro g hg
      have := hinv g
      simpa [hg] using this

/-- Witness for C5: a file repeating genome `g1` fails with the
duplicate-entry error, and a duplicate-free file parses with each of its
three genomes in exactly one group's set. -/
theorem metadata_parser_duplicates_witness :
    (∃ g, parseMetadata ["g1\tA", "g2\tA", "g1\tB"]
      = .error ("Duplicate entry in metadata file: " ++ g)) ∧
    (∃ m, parseMetadata ["g1\tA", "g2\tA", "g3\tB"] = .ok m ∧
      ∀ g ∈ metaNames ["g1\tA", "g2\tA", "g3\tB"],
        m.countP (fun e => decide (g ∈ e.2)) = 1) :=
  ⟨(metadata_parser_duplicates ["g1\tA", "g2\tA", "g1\tB"] (by decide)).1 (by decide),
    (metadata_parser_duplicates ["g1\tA", "g2\tA", "g3\tB"] (by decide)).2 (by decide)⟩

theorem lookup3_parseBlastStep (result tbl : BlastTable) (line : String) (r : BlastRec)
    (hline : parseBlastLine line = .ok r)
    (hstep : parseBlastStep result line = .ok tbl) (g s hg : String) :
    lookup3 tbl g s hg =
      if r.genome = g ∧ r.seqid = s ∧ r.hitGenome = hg
      then combineHit (lookup3 result g s hg) (hitOf r)
      else lookup3 result g s hg := by
  unfold parseBlastStep at hstep
  rw [hline] at hstep
  simp only [bind, Except.bind] at hstep
  by_cases hgg : g = r.genome
  · subst hgg
    cases h1 : alookup r.genome result with
    | none =>
      simp only [h1] at hstep
      injection hstep with htbl
      subst htbl
      by_cases hss : s = r.seqid
      · subst hss
        by_cases hhh : hg = r.hitGenome
        · subst hhh
          simp [lookup3, alookup_aupdate, alookup, Option.bind, combineHit, h1]
        · simp [lookup3, alookup_aupdate, alookup, Option.bind, h1, hhh, Ne.symm hhh]
      · simp [lookup3, alookup_aupdate, alookup, Option.bind, h1, hss, Ne.symm hss]
    | some seqTbl =>
      simp only [h1] at hstep
      cases h2 : alookup r.seqid seqTbl with
      | none =>
        simp only [h2] at hstep
        injection hstep with htbl
        subst htbl
        by_cases hss : s = r.seqid
        · subst hss
          by_cases hhh : hg = r.hitGenome
          · subst hhh
            simp [lookup3, alookup_aupdate, alookup, Option.bind, combineHit, h1, h2]
          · simp [lookup3, alookup_aupdate, alookup, Option.bind, h1, h2, hhh, Ne.symm hhh]
        · simp [lookup3, alookup_aupdate, alookup, Option.bind, h1, hss, Ne.symm hss]
      | some hitTbl =>
        simp only [h2] at hstep
        cases h3 : alookup r.hitGenome hitTbl with
        | none =>
          simp only [h3] at hstep
          injection hstep with htbl
          subst htbl
          by_cases hss : s = r.seqid
          · subst hss
            by_cases hhh : hg = r.hitGenome
            · subst hhh
              simp [lookup3, alookup_aupdate, alookup, Option.bind, combineHit, h1, h2, h3]
            · simp [lookup3, alookup_aupdate, alookup, Option.bind, h1, h2, h3, hhh,
                Ne.symm hhh]
          · simp [lookup3, alookup_aupdate, alookup, Option.bind, h1, hss, Ne.symm hss]
        | some p =>
          simp only [h3] at hstep
          cases h4 : parseFloat r.evalue with
          | none =>
            simp only [h4] at hstep
            simp at hstep
          | some e =>
            simp only [h4] at hstep
            cases h5 : parseFloat p.evalue with
            | none =>
              simp only [h5] at hstep
              simp at hstep
            | some pe =>
              simp only [h5] at hstep
              by_cases h6 : e < pe
              · rw [if_pos h6] at hstep
                injection hstep with htbl
                subst htbl
                by_cases hss : s = r.seqid
                · subst hss
                  by_cases hhh : hg = r.hitGenome
                  · subst hhh
                    simp [lookup3, alookup_aupdate, alookup, Option.bind, combineHit,
                      valHit, hitOf, h1, h2, h3, h4, h5, h6]
                  · simp [lookup3, alookup_aupdate, alookup, Option.bind, h1, h2, h3, hhh,
                      Ne.symm hhh]
                · simp [lookup3, alookup_aupdate, alookup, Option.bind, h1, hss, Ne.symm hss]
              · rw [if_neg h6] at hstep
                injection hstep with htbl
                subst htbl
                by_cases hss : s = r.seqid
                · subst hss
                  by_cases hhh : hg = r.hitGenome
                  · subst hhh
                    simp [lookup3, Option.bind, combineHit, valHit, hitOf, h1, h2, h3,
                      h4, h5, h6]
                  · simp [hhh, Ne.symm hhh]
                · simp [hss, Ne.symm hss]
  · have hcond : ¬(r.genome = g ∧ r.seqid = s ∧ r.hitGenome = hg) := fun hc => hgg hc.1.symm
    rw [if_neg hcond]
    cases h1 : alookup r.genome result with
    | none =>
      simp only [h1] at hstep
      injection hstep with htbl
      subst htbl
      unfold lookup3
      rw [alookup_aupdate, if_neg hgg]
    | some seqTbl =>
      simp only [h1] at hstep
      cases h2 : alookup r.seqid seqTbl with
      | none =>
        simp only [h2] at hstep
        injection hstep with htbl
        subst htbl
        unfold lookup3
        rw [alookup_aupdate, if_neg hgg]
      | some hitTbl =>
        simp only [h2] at hstep
        cases h3 : alookup r.hitGenome hitTbl with
        | none =>
          simp only [h3] at hstep
          injection hstep with htbl
          subst htbl
          unfold lookup3
          rw [alookup_aupdate, if_neg hgg]
        | some p =>
          simp only [h3] at hstep
          cases h4 : parseFloat r.evalue with
          | none =>
            simp only [h4] at hstep
            simp at hstep
          | some e =>
            simp only [h4] at hstep
            cases h5 : parseFloat p.evalue with
            | none =>
              simp only [h5] at hstep
              simp at hstep
            | some pe =>
              simp only [h5] at hstep
              by_cases h6 : e < pe
              · rw [if_pos h6] at hstep
                injection hstep with htbl
                subst htbl
                unfold lookup3
                rw [alookup_aupdate, if_neg hgg]
              · rw [if_neg h6] at hstep
                injection hstep with htbl
                subst htbl
                rfl

theorem lookup3_parseBlast_fold (lines : List String) :
    ∀ (init tbl : BlastTable), lines.foldlM parseBlastStep init = .ok tbl →
    ∀ g s hg, lookup3 tbl g s hg =
      (matchingRecs lines g s hg).foldl (fun acc r => combineHit acc (hitOf r))
        (lookup3 init g s hg) := by
  induction lines with
  | nil =>
    intro init tbl h g s hg
    have hit : init = tbl := by
      rw [List.foldlM_nil] at h
      injection h
    subst hit
    simp [matchingRecs]
  | cons l ls ih =>
    intro init tbl h g s hg
    rw [List.foldlM_cons] at h
    cases hstep : parseBlastStep init l with
    | error msg =>
      rw [hstep] at h
      cases h
    | ok mid =>
      rw [hstep] at h
      have h' : ls.foldlM parseBlastStep mid = .ok tbl := h
      cases hline : parseBlastLine l with
      | error msg =>
        exfalso
        unfold parseBlastStep at hstep
        rw [hline] at hstep
        simp [bind, Except.bind] at hstep
      | ok r =>
        have hproj := lookup3_parseBlastStep init mid l r hline hstep g s hg
        have hmatch : matchingRecs (l :: ls) g s hg
            = if r.genome = g ∧ r.seqid = s ∧ r.hitGenome = hg
              then r :: matchingRecs ls g s hg else matchingRecs ls g s hg := by
          by_cases hc : r.genome = g ∧ r.seqid = s ∧ r.hitGenome = hg <;>
            simp [matchingRecs, List.filterMap_cons, hline, hc]
        rw [ih mid tbl h' g s hg, hmatch]
        by_cases hc : r.genome = g ∧ r.seqid = s ∧ r.hitGenome = hg
        · rw [if_pos hc] at hproj ⊢
          rw [List.foldl_cons, hproj]
        · rw [if_neg hc] at hproj ⊢
          rw [hproj]

theorem foldl_combineHit_some (hs : List Hit) :
    ∀ b : Hit, ∃ m, hs.foldl combineHit (some b) = some m ∧ m ∈ b :: hs ∧
      (∀ x ∈ b :: hs, valHit m ≤ valHit x) ∧
      (b :: hs).find? (fun x => decide (valHit x ≤ valHit m)) = some m := by
  induction hs with
  | nil =>
    intro b
    refine ⟨b, rfl, List.mem_cons_self _ _, ?_, ?_⟩
    · intro x hx
      rcases List.mem_cons.mp hx with rfl | hx
      · exact le_refl _
      · cases hx
    · exact List.find?_cons_of_pos _ (by simp)
  | cons c t ih =>
    intro b
    rw [List.foldl_cons]
    by_cases hcb : valHit c < valHit b
    · have hcomb : combineHit (some b) c = some c := by simp [combineHit, hcb]
      rw [hcomb]
      obtain ⟨m, hm, hmem, hmin, hfind⟩ := ih c
      have hmb : valHit m < valHit b :=
        lt_of_le_of_lt (hmin c (List.mem_cons_self _ _)) hcb
      refine ⟨m, hm, List.mem_cons_of_mem b hmem, ?_, ?_⟩
      · intro x hx
        rcases List.mem_cons.mp hx with rfl | hx
        · exact le_of_lt hmb
        · exact hmin x hx
      · rw [List.find?_cons_of_neg _ (by simpa using not_le.mpr hmb)]
        exact hfind
    · have hcomb : combineHit (some b) c = some b := by simp [combineHit, hcb]
      rw [hcomb]
      obtain ⟨m, hm, hmem, hmin, hfind⟩ := ih b
      have hbc : valHit b ≤ valHit c := not_lt.mp hcb
      refine ⟨m, hm, ?_, ?_, ?_⟩
      · rcases List.mem_cons.mp hmem with rfl | hmem
        · exact List.mem_cons_self _ _
        · exact List.mem_cons_of_mem _ (List.mem_cons_of_mem _ hmem)
      · intro x hx
        rcases List.mem_cons.mp hx with rfl | hx
        · exact hmin x (List.mem_cons_self _ _)
        rcases List.mem_cons.mp hx with rfl | hx
        · exact le_trans (hmin b (List.mem_cons_self _ _)) hbc
        · exact hmin x (List.mem_cons_of_mem _ hx)
      · by_cases hb : valHit b ≤ valHit m
        · have h1 : (b :: t).find? (fun x => decide (valHit x ≤ valHit m)) = some b :=
            List.find?_cons_of_pos _ (by simpa using hb)
          have hmb : m = b := Option.some.inj (hfind.symm.trans h1)
          rw [List.find?_cons_of_pos _ (by simpa using hb), hmb]
        · have hcc : ¬ (valHit c ≤ valHit m) := fun hcm => hb (le_trans hbc hcm)
          rw [List.find?_cons_of_neg _ (by simpa using hb),
            List.find?_cons_of_neg _ (by simpa using hcc)]
          rwa [List.find?_cons_of_neg _ (by simpa using hb)] at hfind

theorem foldl_combineHit_none (hs : List Hit) (hne : hs ≠ []) :
    ∃ m, hs.foldl combineHit none = some m ∧ m ∈ hs ∧ (∀ x ∈ hs, valHit m ≤ valHit x) ∧
      hs.find? (fun x => decide (valHit x ≤ valHit m)) = some m := by
  cases hs with
  | nil => exact absurd rfl hne
  | cons b t =>
    rw [List.foldl_cons]
    exact foldl_combineHit_some t b

/-- C1: when `_parse_blast` succeeds, the table retains, for each
(query genome, query sequence, hit genome) triple occurring in the
input, exactly one record: the first record among those of the triple
attaining the minimal numeric e-value (so the lowest e-value wins and
ties keep the first encountered), for every input order; triples not
occurring in the input have no entry. -/
theorem parse_blast_min_evalue (lines : List String) (tbl : BlastTable) (g s hg : String)
    (hok : parseBlast lines = .ok tbl)
    (_hvals : ∀ r ∈ matchingRecs lines g s hg, (parseFloat r.evalue).isSome = true) :
    (matchingRecs lines g s hg = [] → lookup3 tbl g s hg = none) ∧
    (matchingRecs lines g s hg ≠ [] →
      ∃ m, lookup3 tbl g s hg = some m ∧
        m ∈ (matchingRecs lines g s hg).map hitOf ∧
        (∀ x ∈ (matchingRecs lines g s hg).map hitOf, valHit m ≤ valHit x) ∧
        ((matchingRecs lines g s hg).map hitOf).find?
          (fun x => decide (valHit x ≤ valHit m)) = some m) := by
  have hfold := lookup3_parseBlast_fold lines [] tbl hok g s hg
  have hconv : (matchingRecs lines g s hg).foldl (fun acc r => combineHit acc (hitOf r))
      (lookup3 ([] : BlastTable) g s hg)
      = ((matchingRecs lines g s hg).map hitOf).foldl combineHit none :=
    (List.foldl_map hitOf combineHit (matchingRecs lines g s hg) none).symm
  rw [hconv] at hfold
  constructor
  · intro hempty
    rw [hfold, hempty]
    rfl
  · intro hne
    have hne' : (matchingRecs lines g s hg).map hitOf ≠ [] := by simpa using hne
    obtain ⟨m, hm, hmem, hmin, hfind⟩ := foldl_combineHit_none _ hne'
    exact ⟨m, by rw [hfold]; exact hm, hmem, hmin, hfind⟩

/-- Witness for C1: three records for the same triple with e-values
0.5, 0.25 and 2e-1 — the table retains the third (numerically smallest,
0.2) with its raw e-value string. -/
theorem parse_blast_min_evalue_witness :
    (matchingRecs ["g1~s1\tg2~t1\t90\t100\t0\t0\t1\t100\t1\t100\t0.5\t200",
        "g1~s1\tg2~t2\t90\t100\t0\t0\t1\t100\t1\t100\t0.25\t200",
        "g1~s1\tg2~t3\t90\t100\t0\t0\t1\t100\t1\t100\t2e-1\t200"] "g1" "s1" "g2" = [] →
      lookup3 [("g1", [("s1", [("g2", ⟨"g2", "t3", "2e-1"⟩)])])] "g1" "s1" "g2" = none) ∧
    (matchingRecs ["g1~s1\tg2~t1\t90\t100\t0\t0\t1\t100\t1\t100\t0.5\t200",
        "g1~s1\tg2~t2\t90\t100\t0\t0\t1\t100\t1\t100\t0.25\t200",
        "g1~s1\tg2~t3\t90\t100\t0\t0\t1\t100\t1\t100\t2e-1\t200"] "g1" "s1" "g2" ≠ [] →
      ∃ m, lookup3 [("g1", [("s1", [("g2", ⟨"g2", "t3", "2e-1"⟩)])])] "g1" "s1" "g2" = some m ∧
        m ∈ (matchingRecs ["g1~s1\tg2~t1\t90\t100\t0\t0\t1\t100\t1\t100\t0.5\t200",
          "g1~s1\tg2~t2\t90\t100\t0\t0\t1\t100\t1\t100\t0.25\t200",
          "g1~s1\tg2~t3\t90\t100\t0\t0\t1\t100\t1\t100\t2e-1\t200"] "g1" "s1" "g2").map hitOf ∧
        (∀ x ∈ (matchingRecs ["g1~s1\tg2~t1\t90\t100\t0\t0\t1\t100\t1\t100\t0.5\t200",
          "g1~s1\tg2~t2\t90\t100\t0\t0\t1\t100\t1\t100\t0.25\t200",
          "g1~s1\tg2~t3\t90\t100\t0\t0\t1\t100\t1\t100\t2e-1\t200"] "g1" "s1" "g2").map hitOf,
          valHit m ≤ valHit x) ∧
        ((matchingRecs ["g1~s1\tg2~t1\t90\t100\t0\t0\t1\t100\t1\t100\t0.5\t200",
          "g1~s1\tg2~t2\t90\t100\t0\t0\t1\t100\t1\t100\t0.25\t200",
          "g1~s1\tg2~t3\t90\t100\t0\t0\t1\t100\t1\t100\t2e-1\t200"] "g1" "s1" "g2").map
            hitOf).find? (fun x => decide (valHit x ≤ valHit m)) = some m) :=
  parse_blast_min_evalue
    ["g1~s1\tg2~t1\t90\t100\t0\t0\t1\t100\t1\t100\t0.5\t200",
      "g1~s1\tg2~t2\t90\t100\t0\t0\t1\t100\t1\t100\t0.25\t200",
      "g1~s1\tg2~t3\t90\t100\t0\t0\t1\t100\t1\t100\t2e-1\t200"]
    [("g1", [("s1", [("g2", ⟨"g2", "t3", "2e-1"⟩)])])] "g1" "s1" "g2"
    (by decide) (by decide)

theorem parseBlastStep_ok_of_fresh (st : BlastTable) (line : String) (r : BlastRec)
    (hline : parseBlastLine line = .ok r)
    (hfresh : lookup3 st r.genome r.seqid r.hitGenome = none) :
    ∃ tbl, parseBlastStep st line = .ok tbl := by
  unfold parseBlastStep
  rw [hline]
  simp only [bind, Except.bind]
  split
  · exact ⟨_, rfl⟩
  · split
    · exact ⟨_, rfl⟩
    · split
      · exact ⟨_, rfl⟩
      · exfalso
        unfold lookup3 at hfresh
        simp_all [Option.bind]

theorem matchingRecs_length_eq_count (lines : List String) (g s hg : String) :
    (matchingRecs lines g s hg).length
      = (lines.filterMap fun l => (parseBlastLine l).toOption.map
          fun r => (r.genome, r.seqid, r.hitGenome)).countP
          (fun t => decide (t = (g, s, hg))) := by
  induction lines with
  | nil => rfl
  | cons l ls ih =>
    cases hline : parseBlastLine l with
    | error msg =>
      have hm : matchingRecs (l :: ls) g s hg = matchingRecs ls g s hg := by
        simp [matchingRecs, List.filterMap_cons, hline]
      have hf : ((l :: ls).filterMap fun l => (parseBlastLine l).toOption.map
            fun r => (r.genome, r.seqid, r.hitGenome))
          = ls.filterMap fun l => (parseBlastLine l).toOption.map
            fun r => (r.genome, r.seqid, r.hitGenome) := by
        simp [List.filterMap_cons, hline, Except.toOption]
      rw [hm, hf, ih]
    | ok r =>
      have hf : ((l :: ls).filterMap fun l => (parseBlastLine l).toOption.map
            fun r => (r.genome, r.seqid, r.hitGenome))
          = ((r.genome, r.seqid, r.hitGenome) : String × String × String)
            :: (ls.filterMap fun l => (parseBlastLine l).toOption.map
              fun r => (r.genome, r.seqid, r.hitGenome)) := by
        simp [List.filterMap_cons, hline, Except.toOption]
      by_cases hc : r.genome = g ∧ r.seqid = s ∧ r.hitGenome = hg
      · have ht : ((r.genome, r.seqid, r.hitGenome) : String × String × String)
            = (g, s, hg) := by
          rw [hc.1, hc.2.1, hc.2.2]
        have hm : matchingRecs (l :: ls) g s hg = r :: matchingRecs ls g s hg := by
          simp [matchingRecs, List.filterMap_cons, hline, hc]
        rw [hm, hf, List.length_cons, List.countP_cons, ih, ht]
        simp
      · have ht : ¬(((r.genome, r.seqid, r.hitGenome) : String × String × String)
            = (g, s, hg)) := by
          intro hh
          simp only [Prod.mk.injEq] at hh
          exact hc ⟨hh.1, hh.2.1, hh.2.2⟩
        have hm : matchingRecs (l :: ls) g s hg = matchingRecs ls g s hg := by
          simp [matchingRecs, List.filterMap_cons, hline, hc]
        rw [hm, hf, List.countP_cons, ih]
        simp [ht]

theorem countP_eq_le_one_of_nodup {α : Type} [DecidableEq α] (l : List α) (hnd : l.Nodup)
    (a : α) : l.countP (fun t => decide (t = a)) ≤ 1 := by
  induction l with
  | nil => simp
  | cons x xs ih =>
    have hx : x ∉ xs := (List.nodup_cons.mp hnd).1
    have hnd' := (List.nodup_cons.mp hnd).2
    by_cases hxa : x = a
    · subst hxa
      have h0 : xs.countP (fun t => decide (t = x)) = 0 := by
        rw [List.countP_eq_zero]
        intro t ht
        simp only [decide_eq_true_eq]
        rintro rfl
        exact hx ht
      simp [List.countP_cons, h0]
    · have hstep : (x :: xs).countP (fun t => decide (t = a))
          = xs.countP (fun t => decide (t = a)) := by
        simp [List.countP_cons, hxa]
      rw [hstep]
      exact ih hnd'

theorem parseBlast_ok_of_uniq (lines : List String) :
    ∀ (st : BlastTable),
    (∀ l ∈ lines, (parseBlastLine l).isOk = true) →
    (∀ l ∈ lines, ∀ r, parseBlastLine l = .ok r →
      lookup3 st r.genome r.seqid r.hitGenome = none) →
    (∀ g s hg, (matchingRecs lines g s hg).length ≤ 1) →
    ∃ tbl, lines.foldlM parseBlastStep st = .ok tbl ∧
      ∀ l ∈ lines, ∀ r, parseBlastLine l = .ok r →
        lookup3 tbl r.genome r.seqid r.hitGenome = some (hitOf r) := by
  induction lines with
  | nil =>
    intro st _ _ _
    exact ⟨st, rfl, by intro l hl; cases hl⟩
  | cons l ls ih =>
    intro st hwf hfresh huniq
    have hok0 := hwf l (List.mem_cons_self _ _)
    cases hline : parseBlastLine l with
    | error msg =>
      rw [hline] at hok0
      cases hok0
    | ok r =>
      obtain ⟨mid, hstep⟩ := parseBlastStep_ok_of_fresh st l r hline
        (hfresh l (List.mem_cons_self _ _) r hline)
      have hproj := fun g' s' hg' => lookup3_parseBlastStep st mid l r hline hstep g' s' hg'
      have hls_nil : matchingRecs ls r.genome r.seqid r.hitGenome = [] := by
        have h1 := huniq r.genome r.seqid r.hitGenome
        have hcons : matchingRecs (l :: ls) r.genome r.seqid r.hitGenome
            = r :: matchingRecs ls r.genome r.seqid r.hitGenome := by
          simp [matchingRecs, List.filterMap_cons, hline]
        rw [hcons, List.length_cons] at h1
        exact List.eq_nil_of_length_eq_zero (by omega)
      have hfresh' : ∀ l' ∈ ls, ∀ r', parseBlastLine l' = .ok r' →
          lookup3 mid r'.genome r'.seqid r'.hitGenome = none := by
        intro l' hl' r' hline'
        rw [hproj r'.genome r'.seqid r'.hitGenome]
        by_cases hc : r.genome = r'.genome ∧ r.seqid = r'.seqid ∧ r.hitGenome = r'.hitGenome
        · exfalso
          have hmem : r' ∈ matchingRecs ls r.genome r.seqid r.hitGenome := by
            apply List.mem_filterMap.mpr
            refine ⟨l', hl', ?_⟩
            simp [hline', hc.1.symm, hc.2.1.symm, hc.2.2.symm]
          rw [hls_nil] at hmem
          cases hmem
        · rw [if_neg hc]
          exact hfresh l' (List.mem_cons_of_mem _ hl') r' hline'
      have huniq' : ∀ g' s' hg', (matchingRecs ls g' s' hg').length ≤ 1 := by
        intro g' s' hg'
        have h1 := huniq g' s' hg'
        have h2 : (matchingRecs ls g' s' hg').length
            ≤ (matchingRecs (l :: ls) g' s' hg').length := by
          by_cases hc : r.genome = g' ∧ r.seqid = s' ∧ r.hitGenome = hg' <;>
            simp [matchingRecs, List.filterMap_cons, hline, hc]
        omega
      obtain ⟨tbl, hfold, hret⟩ :=
        ih mid (fun l' h => hwf l' (List.mem_cons_of_mem _ h)) hfresh' huniq'
      refine ⟨tbl, ?_, ?_⟩
      · rw [List.foldlM_cons, hstep]
        exact hfold
      · intro l' hl' r' hline'
        rcases List.mem_cons.mp hl' with heq | hl'
        · have heq' := heq.symm
          subst heq'
          rw [hline] at hline'
          injection hline' with hr
          subst hr
          have hfold3 := lookup3_parseBlast_fold ls mid tbl hfold r.genome r.seqid r.hitGenome
          rw [hls_nil] at hfold3
          simp only [List.foldl_nil] at hfold3
          rw [hfold3, hproj r.genome r.seqid r.hitGenome, if_pos ⟨rfl, rfl, rfl⟩,
            hfresh l (List.mem_cons_self _ _) r hline]
          rfl
        · exact hret l' hl' r' hline'

/-- C10: `_parse_blast` stores retained e-values as the raw input
strings (the stored record is `hitOf r`, whose `evalue` field is the
unsplit field text) and converts them to float only on a collision for
an already-present triple; consequently, on any input whose
(query genome, query sequence, hit genome) triples are pairwise
distinct, the parse succeeds — with no constraint whatsoever on the
e-value fields — and every record is retained verbatim. -/
theorem parse_blast_raw_evalue (lines : List String)
    (hwf : ∀ l ∈ lines, (parseBlastLine l).isOk = true)
    (huniq : (lines.filterMap fun l => (parseBlastLine l).toOption.map
      fun r => (r.genome, r.seqid, r.hitGenome)).Nodup) :
    ∃ tbl, parseBlast lines = .ok tbl ∧
      ∀ l ∈ lines, ∀ r, parseBlastLine l = .ok r →
        lookup3 tbl r.genome r.seqid r.hitGenome = some (hitOf r) := by
  have huniq' : ∀ g s hg, (matchingRecs lines g s hg).length ≤ 1 := by
    intro g s hg
    rw [matchingRecs_length_eq_count]
    exact countP_eq_le_one_of_nodup _ huniq (g, s, hg)
  have hfresh : ∀ l ∈ lines, ∀ r, parseBlastLine l = .ok r →
      lookup3 ([] : BlastTable) r.genome r.seqid r.hitGenome = none := by
    intro _ _ _ _
    rfl
  exact parseBlast_ok_of_uniq lines [] hwf hfresh huniq'

/-- Witness for C10: two records with distinct triples and non-numeric
e-value fields `BAD` and `WORSE` parse without error and are retained
verbatim. -/
theorem parse_blast_raw_evalue_witness :
    ∃ tbl, parseBlast ["g1~s1\tg2~t1\t9\t1\t0\t0\t1\t1\t1\t1\tBAD\t2",
        "g1~s2\tg2~t2\t9\t1\t0\t0\t1\t1\t1\t1\tWORSE\t2"] = .ok tbl ∧
      ∀ l ∈ ["g1~s1\tg2~t1\t9\t1\t0\t0\t1\t1\t1\t1\tBAD\t2",
        "g1~s2\tg2~t2\t9\t1\t0\t0\t1\t1\t1\t1\tWORSE\t2"], ∀ r, parseBlastLine l = .ok r →
        lookup3 tbl r.genome r.seqid r.hitGenome = some (hitOf r) :=
  parse_blast_raw_evalue
    ["g1~s1\tg2~t1\t9\t1\t0\t0\t1\t1\t1\t1\tBAD\t2",
      "g1~s2\tg2~t2\t9\t1\t0\t0\t1\t1\t1\t1\tWORSE\t2"]
    (by decide) (by decide)
